import Mathlib

/-!
Verification of the Policy Gateway and Resource Lifecycle subsystem of the
mcp-proxy server (claude-desktop-skills-proxy).

The development shallowly embeds the TypeScript sources:
  - `src/config/defaults.ts` (baseline blocklists, default configuration),
  - `src/config/manager.ts` (pattern matcher, identifier normalizers, policy
    evaluator, allowlist mutation),
  - `src/tools/network-exec.ts` (dangerous-pattern argument validator),
  - `src/utils/rate-limiter.ts` (sliding-window rate limiter),
  - `src/server/file-registry.ts` (TTL file registry with lazy expiry),
  - `src/server/http-file-server.ts` (request dispatch of the local server),
  - `src/server/tunnel-manager.ts` (tunnel supervisor state).

Async functions are embedded as pure state-passing functions: the in-memory
configuration / registry / timestamp store is passed in and the updated state
returned.  `Date.now()` / `new Date()` become an explicit `now : Int`
parameter.  Host-platform primitives (the WHATWG URL parser behind `new URL`,
Node's `path.basename`) are modelled as pure string functions restricted
to ASCII, which is the character range the policy data uses.
-/

/-- Approval status for a resource request (src/config/defaults.ts). -/
inductive ApprovalStatus where
  | BLOCKED
  | ALLOWED
  | NEEDS_APPROVAL
deriving DecidableEq, Repr

/-- Configuration structure for the proxy server (src/config/defaults.ts,
`ProxyConfig`; the optional file-server block is not needed here). -/
structure ProxyConfig where
  allowedDomains : List String
  blockedDomains : List String
  allowedCommands : List String
  blockedCommands : List String
deriving DecidableEq, Repr

/-- Default blocked domains (src/config/defaults.ts, `DEFAULT_BLOCKED_DOMAINS`). -/
def DEFAULT_BLOCKED_DOMAINS : List String :=
  [ "localhost", "127.0.0.1", "::1", "[::1]",
    "169.254.169.254",
    "169.254.*",
    "10.*",
    "172.16.*", "172.17.*", "172.18.*", "172.19.*", "172.20.*", "172.21.*",
    "172.22.*", "172.23.*", "172.24.*", "172.25.*", "172.26.*", "172.27.*",
    "172.28.*", "172.29.*", "172.30.*", "172.31.*",
    "192.168.*",
    "172.17.0.*",
    "10.0.0.*", "10.96.*",
    "fe80:*", "[fe80:*",
    "fc00:*", "[fc00:*", "fd00:*", "[fd00:*",
    "::ffff:*", "[::ffff:*" ]

/-- Default blocked commands (src/config/defaults.ts, `DEFAULT_BLOCKED_COMMANDS`). -/
def DEFAULT_BLOCKED_COMMANDS : List String :=
  [ "rm", "rmdir", "del",
    "sudo", "su", "doas",
    "chmod", "chown", "chgrp",
    "mv",
    "mkfs", "fdisk", "dd", "format",
    "apt-get", "apt", "yum", "dnf", "pacman", "brew",
    "bash", "sh", "zsh", "fish", "csh", "tcsh",
    "nc", "netcat", "ncat", "telnet",
    "passwd",
    "kill", "killall", "pkill" ]

/-- Fresh copy of the default configuration (src/config/defaults.ts,
`createDefaultConfig`). -/
def createDefaultConfig : ProxyConfig :=
  { allowedDomains := []
    blockedDomains := DEFAULT_BLOCKED_DOMAINS
    allowedCommands := []
    blockedCommands := DEFAULT_BLOCKED_COMMANDS }

/-- ECMAScript line terminators (LF, CR, U+2028, U+2029): the characters
the regex atom `.` does not match when the `s` flag is absent. -/
def isLineTerminator (c : Char) : Bool :=
  c = '\n' || c = '\r' || c = '\u2028' || c = '\u2029'

/-- Core of the wildcard matcher on characters.  The source builds the regex
`^e$` from the pattern by escaping every regex metacharacter and then turning
each `*` into `.*` (src/config/manager.ts, `matchesPattern`); the resulting
regex is an anchored alternation-free concatenation of literal characters and
`.*` blocks.  Its matching relation is this glob matcher: `*` (i.e. `.*`
without the `s` flag) consumes any sequence of non-line-terminator
characters, every other character matches only itself (a literal line
terminator in the pattern does match itself). -/
def globMatch : List Char → List Char → Bool
  | [], s => s.isEmpty
  | p :: ps, s =>
    if p = '*' then
      (List.range (s.length + 1)).any fun i =>
        (s.take i).all (fun c => !isLineTerminator c) && globMatch ps (s.drop i)
    else
      match s with
      | [] => false
      | c :: cs => p == c && globMatch ps cs

/-- Checks if a value matches a wildcard pattern (src/config/manager.ts,
`matchesPattern`).  The `i` regex flag is embedded by case-folding both the
pattern and the value. -/
def matchesPattern (value : String) (pattern : String) : Bool :=
  globMatch (pattern.toList.map Char.toLower) (value.toList.map Char.toLower)

/-- Checks if a value matches any pattern in a list (src/config/manager.ts,
`matchesAnyPattern`). -/
def matchesAnyPattern (value : String) (patterns : List String) : Bool :=
  patterns.any fun pattern => matchesPattern value pattern

/-- Characters permitted in a URL scheme, as accepted by the platform URL
parser: `[a-zA-Z][a-zA-Z0-9+.-]*`. -/
def isSchemeChar (c : Char) : Bool :=
  c.isAlpha || c.isDigit || c = '+' || c = '-' || c = '.'

/-- Drops a leading userinfo component (`user:pass@`) of an authority. -/
def afterLastAt (cs : List Char) : List Char :=
  (cs.reverse.takeWhile fun c => c ≠ '@').reverse

/-- Model of the platform URL parser (`new URL(x).hostname`), a host
primitive outside this repository: recognizes absolute hierarchical URLs
`scheme://[userinfo@]host[:port][/...]` and yields the lower-cased host;
every other input is a parse failure (`none`).  The claims proved below
quantify over the output of the normalizer, so they do not depend on the
corner cases of this model. -/
def parseUrlHostname (cs : List Char) : Option (List Char) :=
  let scheme := cs.takeWhile fun c => c ≠ ':'
  let rest := cs.drop scheme.length
  if scheme ≠ [] && scheme.all isSchemeChar && (scheme.headD ' ').isAlpha then
    match rest with
    | ':' :: '/' :: '/' :: rest2 =>
      let authority := rest2.takeWhile fun c => c ≠ '/' && c ≠ '?' && c ≠ '#'
      let hostPort := afterLastAt authority
      let host := hostPort.takeWhile fun c => c ≠ ':'
      if host = [] then none else some (host.map Char.toLower)
    | _ => none
  else none

/-- Extracts the hostname from a URL, or lower-cases the string if it is
already a bare domain (src/config/manager.ts, `extractDomain`). -/
def extractDomain (urlOrDomain : String) : String :=
  match parseUrlHostname urlOrDomain.toList with
  | some host => ⟨host⟩
  | none => ⟨urlOrDomain.toList.map Char.toLower⟩

/-- Model of Node's `path.basename` (posix): strips trailing separators and
returns the final path segment. -/
def basenameChars (cs : List Char) : List Char :=
  ((cs.reverse.dropWhile fun c => c = '/').takeWhile fun c => c ≠ '/').reverse

/-- Extracts the base command name from a command string: first
whitespace-delimited token, directory components stripped, lower-cased
(src/config/manager.ts, `extractCommand`). -/
def extractCommand (commandString : String) : String :=
  let trimmed := (commandString.toList.dropWhile Char.isWhitespace).reverse
      |>.dropWhile Char.isWhitespace |>.reverse
  let fullCommand := trimmed.takeWhile fun c => ¬ c.isWhitespace
  ⟨(basenameChars fullCommand).map Char.toLower⟩

/-- Checks if a domain is allowed: blocklist first, then allowlist, else
needs approval (src/config/manager.ts, `isDomainAllowed`; the configuration
read by `getConfig()` is passed explicitly). -/
def isDomainAllowed (config : ProxyConfig) (urlOrDomain : String) : ApprovalStatus :=
  let domain := extractDomain urlOrDomain
  if matchesAnyPattern domain config.blockedDomains then
    ApprovalStatus.BLOCKED
  else if matchesAnyPattern domain config.allowedDomains then
    ApprovalStatus.ALLOWED
  else
    ApprovalStatus.NEEDS_APPROVAL

/-- Checks if a command is allowed: blocklist first, then allowlist, else
needs approval (src/config/manager.ts, `isCommandAllowed`). -/
def isCommandAllowed (config : ProxyConfig) (commandString : String) : ApprovalStatus :=
  let command := extractCommand commandString
  if matchesAnyPattern command config.blockedCommands then
    ApprovalStatus.BLOCKED
  else if matchesAnyPattern command config.allowedCommands then
    ApprovalStatus.ALLOWED
  else
    ApprovalStatus.NEEDS_APPROVAL

/-- Adds a domain to the allowlist and persists (src/config/manager.ts,
`addDomainToAllowlist`).  The first component is the thrown error, if any;
the second is the configuration state afterwards (both the in-memory cache
and, via `saveConfig`, the persisted file — the throw happens before any
mutation, so on error the state is returned untouched). -/
def addDomainToAllowlist (config : ProxyConfig) (urlOrDomain : String) :
    Option String × ProxyConfig :=
  let domain := extractDomain urlOrDomain
  if matchesAnyPattern domain config.blockedDomains then
    (some "Domain is in the security blocklist and cannot be added to allowlist",
     config)
  else if config.allowedDomains.contains domain then
    (none, config)
  else
    (none, { config with allowedDomains := config.allowedDomains ++ [domain] })

/-- Adds a command to the allowlist and persists (src/config/manager.ts,
`addCommandToAllowlist`). -/
def addCommandToAllowlist (config : ProxyConfig) (commandString : String) :
    Option String × ProxyConfig :=
  let command := extractCommand commandString
  if matchesAnyPattern command config.blockedCommands then
    (some "Command is in the security blocklist and cannot be added to allowlist",
     config)
  else if config.allowedCommands.contains command then
    (none, config)
  else
    (none, { config with allowedCommands := config.allowedCommands ++ [command] })

/-- Shell operators that are not allowed in arguments
(src/tools/network-exec.ts, `DANGEROUS_PATTERNS`). -/
def DANGEROUS_PATTERNS : List String :=
  [ ";", "|", "&&", "||", ">", "<", "$(", "`", "$\x7b" ]

/-- Whether the list `l` starts with the list `sub`. -/
def startsWithChars : List Char → List Char → Bool
  | [], _ => true
  | _ :: _, [] => false
  | a :: as, b :: bs => a == b && startsWithChars as bs

/-- Substring test on character lists, modelling JS `String.includes`. -/
def hasSub (l sub : List Char) : Bool :=
  (List.range (l.length + 1)).any fun i => startsWithChars sub (l.drop i)

/-- Returns the first dangerous pattern occurring inside the value, if any
(src/tools/network-exec.ts, `containsDangerousPatterns`). -/
def containsDangerousPatterns (value : String) : Option String :=
  DANGEROUS_PATTERNS.find? fun pattern => hasSub value.toList pattern.toList

/-- Validates all arguments for dangerous patterns; `true` means valid
(src/tools/network-exec.ts, `validateArgs`, projected to its `valid` flag —
the accompanying message names the first failing argument). -/
def validateArgs (args : List String) : Bool :=
  args.all fun arg => (containsDangerousPatterns arg).isNone

/-- Outcome of the validation stage of `networkExec` that runs before any
classification or spawning (src/tools/network-exec.ts, `networkExec`,
steps 2–3): `rejectedCommand`/`rejectedArg` are the early `status: "error"`
returns naming the offending operator, `proceed` means control reaches the
allowlist check and, policy permitting, the spawn. -/
inductive ExecGate where
  | rejectedCommand (pattern : String)
  | rejectedArg (pattern : String)
  | proceed
deriving DecidableEq, Repr

/-- The argument-validation gate of `networkExec`: the raw command string is
checked first, then each argument in order; nothing is spawned unless the
result is `proceed` (src/tools/network-exec.ts, `networkExec`, steps 2–3). -/
def networkExecGate (command : String) (args : List String) : ExecGate :=
  match containsDangerousPatterns command with
  | some pattern => ExecGate.rejectedCommand pattern
  | none =>
    match (args.map containsDangerousPatterns).find? Option.isSome with
    | some (some pattern) => ExecGate.rejectedArg pattern
    | _ => ExecGate.proceed

/-- Rate limit configuration (src/utils/rate-limiter.ts, `RateLimitConfig`). -/
structure RateLimitConfig where
  maxRequests : Nat
  windowMs : Int
deriving DecidableEq, Repr

/-- Result of a rate-limit admission call (src/utils/rate-limiter.ts,
return shape of `checkRateLimit`). -/
structure RateLimitResult where
  allowed : Bool
  remaining : Int
  retryAfterMs : Option Int
deriving DecidableEq, Repr

/-- `Math.min(...list)` over a nonempty spread.  JS yields `Infinity` on an
empty list; that case is unreachable in the deny branch whenever
`maxRequests ≥ 1`, and the theorems below assume as much. -/
def listMin : List Int → Int
  | [] => 0
  | t :: rest => rest.foldl min t

/-- Checks the rate limit and records the request (src/utils/rate-limiter.ts,
`checkRateLimit`).  The per-identifier timestamp list stored in
`requestStore` is passed in and the updated list returned; `Date.now()` is
the explicit `now`.  The periodic `cleanupOldEntries` sweep only drops
whole identifiers whose timestamps are all stale and never changes the
in-window contents consulted here, so it is not part of this step. -/
def checkRateLimit (now : Int) (config : RateLimitConfig)
    (timestamps : List Int) : RateLimitResult × List Int :=
  let windowStart := now - config.windowMs
  let ts := timestamps.filter fun t => windowStart ≤ t
  if config.maxRequests ≤ ts.length then
    let oldestTimestamp := listMin ts
    let retryAfterMs := oldestTimestamp + config.windowMs - now
    ({ allowed := false, remaining := 0, retryAfterMs := some (max 0 retryAfterMs) },
     ts)
  else
    ({ allowed := true,
       remaining := (config.maxRequests : Int) - (ts.length + 1),
       retryAfterMs := none },
     ts ++ [now])

/-- A file registration record (src/server/file-registry.ts,
`FileRegistration`); `Date` fields become `Int` millisecond timestamps. -/
structure FileRegistration where
  id : String
  originalPath : String
  servePath : String
  filename : String
  contentType : String
  size : Int
  createdAt : Int
  expiresAt : Int
deriving DecidableEq, Repr

/-- The registry's id-indexed table (`FileRegistry.files`, a `Map`),
modelled as an association list with distinct keys. -/
abbrev RegistryFiles := List (String × FileRegistration)

/-- Map deletion (`this.files.delete(id)` inside `removeFile`; the unlink of
the served copy acts on the filesystem, outside this state). -/
def removeEntry (id : String) (files : RegistryFiles) : RegistryFiles :=
  files.filter fun e => ¬ e.1 = id

namespace FileRegistry

/-- Lookup with lazy expiry (src/server/file-registry.ts, `FileRegistry.get`):
if the registration is found but `expiresAt < now`, it is dropped via
`removeFile` and `undefined` is returned; the pair is (returned value,
table afterwards). -/
def get (now : Int) (files : RegistryFiles) (id : String) :
    Option FileRegistration × RegistryFiles :=
  match files.lookup id with
  | some registration =>
    if registration.expiresAt < now then (none, removeEntry id files)
    else (some registration, files)
  | none => (none, files)

end FileRegistry

/-- Responses the local exposure server can produce
(src/server/http-file-server.ts, `handleRequest`): `noContent` is the 204
CORS preflight reply, `methodNotAllowed` the 405, `notFound` the 404, and
`okHead`/`okFull` the 200 replies (the latter streams the served copy —
the only branch that touches the filesystem). -/
inductive HttpResponse where
  | noContent
  | methodNotAllowed
  | notFound
  | okHead (registration : FileRegistration)
  | okFull (registration : FileRegistration)
deriving DecidableEq, Repr

/-- Model of `new URL(req.url, base).pathname` for origin-form request
targets: the part of the target before any query or fragment. -/
def requestPathname (url : String) : String :=
  ⟨url.toList.takeWhile fun c => c ≠ '?' && c ≠ '#'⟩

/-- `pathParts[pathParts.length - 1] || ""` after splitting the pathname on
`/` and dropping empty segments (src/server/http-file-server.ts).  The last
nonempty `/`-separated segment is the maximal run of non-`/` characters
ending at the last non-`/` character, computed here directly on the
character list. -/
def lastPathSegment (pathname : String) : String :=
  ⟨((pathname.toList.reverse.dropWhile fun c => c = '/').takeWhile
      fun c => c ≠ '/').reverse⟩

/-- A character of the id class `[0-9a-f-]` under the `i` flag. -/
def isHexDashChar (c : Char) : Bool :=
  c.isDigit || ('a' ≤ c && c ≤ 'f') || ('A' ≤ c && c ≤ 'F') || c = '-'

/-- The anchored filename regex of the server, `([0-9a-f-]` of length 36,
then a dot, then a nonempty dot-free extension`)` with the `i` flag
(src/server/http-file-server.ts); returns the captured 36-character id. -/
def matchRegistryFilename (s : String) : Option String :=
  let cs := s.toList
  let idPart := cs.take 36
  let rest := cs.drop 36
  if idPart.length = 36 && idPart.all isHexDashChar then
    if rest.headD ' ' = '.' && (¬ rest.tail = [] && rest.tail.all fun c => c ≠ '.') then
      some ⟨idPart⟩
    else none
  else none

namespace HttpFileServer

/-- Request dispatch of the local exposure server
(src/server/http-file-server.ts, `handleRequest`), with the registry table
threaded through `FileRegistry.get` (whose lazy expiry may remove an
entry). -/
def handleRequest (method url : String) (now : Int) (files : RegistryFiles) :
    HttpResponse × RegistryFiles :=
  if method = "OPTIONS" then (HttpResponse.noContent, files)
  else if ¬ method = "GET" && ¬ method = "HEAD" then
    (HttpResponse.methodNotAllowed, files)
  else
    match matchRegistryFilename (lastPathSegment (requestPathname url)) with
    | none => (HttpResponse.notFound, files)
    | some fileId =>
      match FileRegistry.get now files fileId with
      | (none, files2) => (HttpResponse.notFound, files2)
      | (some registration, files2) =>
        if method = "HEAD" then (HttpResponse.okHead registration, files2)
        else (HttpResponse.okFull registration, files2)

end HttpFileServer

/-- Mutable state of the tunnel supervisor (src/server/tunnel-manager.ts,
`TunnelManager` fields; `process` records whether a subprocess handle is
held). -/
structure TunnelState where
  process : Bool
  publicUrl : Option String
  restartCount : Nat
deriving DecidableEq, Repr

/-- `maxRestarts` (src/server/tunnel-manager.ts). -/
def maxRestarts : Nat := 3

namespace TunnelManager

/-- Intentional stop (src/server/tunnel-manager.ts, `stop`): signals the
subprocess and clears `process` and `publicUrl`; `restartCount` is not
touched. -/
def stop (s : TunnelState) : TunnelState :=
  { s with process := false, publicUrl := none }

/-- The recognized public URL arrives on the subprocess's stderr
(src/server/tunnel-manager.ts, the `data` handler): records it. -/
def urlFound (u : String) (s : TunnelState) : TunnelState :=
  { s with publicUrl := some u }

/-- Unexpected subprocess exit (src/server/tunnel-manager.ts, the `close`
handler, after the start promise has resolved): clears the handle and URL;
if the tunnel was running and the restart cap is not reached,
increments `restartCount` and respawns. -/
def onClose (s : TunnelState) : TunnelState :=
  let wasRunning := s.publicUrl.isSome
  if wasRunning && s.restartCount < maxRestarts then
    { process := true, publicUrl := none, restartCount := s.restartCount + 1 }
  else
    { process := false, publicUrl := none, restartCount := s.restartCount }

end TunnelManager

/-- Wildcard matching relation written from the claim's words: matching is
anchored to the whole string, `*` matches zero or more arbitrary
characters (the string splits into an arbitrary prefix consumed by `*` and
a remainder matched by the rest of the pattern), and every other pattern
character matches only itself.  Refuted below against the source-derived
`globMatch`: the program's `*` cannot cross a line terminator. -/
def GlobSpecAny : List Char → List Char → Prop
  | [], s => s = []
  | p :: ps, s =>
    if p = '*' then ∃ pre suf, s = pre ++ suf ∧ GlobSpecAny ps suf
    else ∃ cs, s = p :: cs ∧ GlobSpecAny ps cs

/-- Specification-side wildcard matching relation, amended to the program's
behaviour: matching is anchored to the whole string, `*` matches zero or
more characters none of which is a line terminator (the regex atom `.`
without the `s` flag), and every other pattern character matches only
itself.  Compared against the source-derived `globMatch`. -/
def GlobSpec : List Char → List Char → Prop
  | [], s => s = []
  | p :: ps, s =>
    if p = '*' then
      ∃ pre suf, s = pre ++ suf ∧ (∀ c ∈ pre, isLineTerminator c = false) ∧
        GlobSpec ps suf
    else ∃ cs, s = p :: cs ∧ GlobSpec ps cs

section GlobLemmas

theorem globMatch_star (ps : List Char) (s : List Char) :
    globMatch ('*' :: ps) s
      = (List.range (s.length + 1)).any fun i =>
          (s.take i).all (fun c => !isLineTerminator c) && globMatch ps (s.drop i) := by
  simp [globMatch]

theorem globMatch_lit {p : Char} (hp : p ≠ '*') (ps : List Char) :
    (∀ c cs, globMatch (p :: ps) (c :: cs) = (p == c && globMatch ps cs)) ∧
    globMatch (p :: ps) [] = false := by
  refine ⟨fun c cs => ?_, ?_⟩ <;> simp [globMatch, hp]

theorem GlobSpec_star (ps s : List Char) :
    GlobSpec ('*' :: ps) s ↔
      ∃ pre suf, s = pre ++ suf ∧ (∀ c ∈ pre, isLineTerminator c = false) ∧
        GlobSpec ps suf := by
  simp [GlobSpec]

theorem GlobSpec_lit {p : Char} (hp : p ≠ '*') (ps s : List Char) :
    GlobSpec (p :: ps) s ↔ ∃ cs, s = p :: cs ∧ GlobSpec ps cs := by
  simp [GlobSpec, hp]

/-- The source's regex-based matcher agrees with the amended
specification-side wildcard relation. -/
theorem globMatch_iff_GlobSpec (ps s : List Char) :
    globMatch ps s = true ↔ GlobSpec ps s := by
  induction ps generalizing s with
  | nil =>
    simp only [globMatch, GlobSpec, List.isEmpty_iff]
  | cons p ps ih =>
    by_cases hp : p = '*'
    · subst hp
      rw [globMatch_star, GlobSpec_star]
      simp only [List.any_eq_true, List.mem_range, Bool.and_eq_true]
      constructor
      · rintro ⟨i, _, hall, hm⟩
        refine ⟨s.take i, s.drop i, (List.take_append_drop i s).symm,
          fun c hc => ?_, (ih _).1 hm⟩
        simpa using List.all_eq_true.mp hall c hc
      · rintro ⟨pre, suf, rfl, hpre, hsem⟩
        refine ⟨pre.length, ?_, ?_, ?_⟩
        · simp only [List.length_append]; omega
        · rw [List.take_left]
          exact List.all_eq_true.mpr fun c hc => by simpa using hpre c hc
        · rw [List.drop_left]
          exact (ih _).2 hsem
    · rw [GlobSpec_lit hp]
      cases s with
      | nil =>
        rw [(globMatch_lit hp ps).2]
        simp
      | cons c cs =>
        rw [(globMatch_lit hp ps).1]
        simp only [Bool.and_eq_true, beq_iff_eq]
        constructor
        · rintro ⟨rfl, hm⟩
          exact ⟨cs, rfl, (ih _).1 hm⟩
        · rintro ⟨cs', heq, hsem⟩
          injection heq with h1 h2
          subst h1; subst h2
          exact ⟨rfl, (ih _).2 hsem⟩

/-- Every string matches itself as a pattern (a literal allowlist entry
matches the identifier it was created from; a `*` in the value is consumed
by the corresponding `*` of the pattern, and `*` is not a line
terminator). -/
theorem globMatch_self (l : List Char) : globMatch l l = true := by
  induction l with
  | nil => rfl
  | cons p ps ih =>
    by_cases hp : p = '*'
    · subst hp
      rw [globMatch_star]
      simp only [List.any_eq_true, List.mem_range]
      refine ⟨1, by simp, ?_⟩
      rw [show ('*' :: ps).take 1 = ['*'] from rfl,
        show ('*' :: ps).drop 1 = ps from rfl, Bool.and_eq_true]
      exact ⟨by decide, ih⟩
    · rw [(globMatch_lit hp ps).1]
      simp [ih]

theorem matchesPattern_self (s : String) : matchesPattern s s = true :=
  globMatch_self _

theorem matchesAnyPattern_of_mem {s : String} {patterns : List String}
    (h : s ∈ patterns) : matchesAnyPattern s patterns = true := by
  simp only [matchesAnyPattern, List.any_eq_true]
  exact ⟨s, h, matchesPattern_self s⟩

end GlobLemmas

/-- C4 counterexample: under the claim's reading of `*` as "zero or more
arbitrary characters" (`GlobSpecAny`), pattern "a*b" matches the value
containing a line feed, but the program does not match it: the source
compiles `*` to the regex atoms `.*` with no `s` flag, and ECMAScript `.`
does not match a line terminator. -/
theorem matchesPattern_newline_counterexample :
    GlobSpecAny ("a*b".toList.map Char.toLower)
      ("a\nb".toList.map Char.toLower) ∧
    matchesPattern "a\nb" "a*b" = false := by
  constructor
  · show GlobSpecAny ['a', '*', 'b'] ['a', '\n', 'b']
    exact ⟨['\n', 'b'], rfl, ['\n'], ['b'], rfl, [], rfl, rfl⟩
  · decide

/-- C4 (amended): pattern matching is case-insensitive (it depends only on
the case-folded value and pattern) and is exactly the anchored wildcard
relation `GlobSpec`: `*` matches zero or more characters none of which is
a line terminator, and every other pattern character matches only itself,
over the whole string, never as a substring.  In particular "172.16.*"
matches "172.16.0.5" and not "172.160.0.5", case differences are ignored,
a pattern does not match a proper superstring of itself, and "a*b" does
not match across a line feed. -/
theorem matchesPattern_semantics :
    (∀ value pattern : String,
        matchesPattern value pattern = true ↔
          GlobSpec (pattern.toList.map Char.toLower)
            (value.toList.map Char.toLower)) ∧
    matchesPattern "172.16.0.5" "172.16.*" = true ∧
    matchesPattern "172.160.0.5" "172.16.*" = false ∧
    matchesPattern "ExAmPle.COM" "example.com" = true ∧
    matchesPattern "xexample.comy" "example.com" = false ∧
    matchesPattern "a\nb" "a*b" = false :=
  ⟨fun _ _ => globMatch_iff_GlobSpec _ _, by decide, by decide, by decide,
    by decide, by decide⟩

/-- Witness for C4 at a concrete input: the amended wildcard relation
derived for "172.16.0.5" against "172.16.*". -/
theorem matchesPattern_semantics_witness :
    GlobSpec ("172.16.*".toList.map Char.toLower)
      ("172.16.0.5".toList.map Char.toLower) :=
  (matchesPattern_semantics.1 "172.16.0.5" "172.16.*").mp (by decide)

/-- C1: a normalized domain or command matching any blocklist pattern is
classified BLOCKED, whatever the allowlists contain (the blocklist check
precedes the allowlist check in `isDomainAllowed` / `isCommandAllowed`). -/
theorem blocklist_always_blocks (config : ProxyConfig) (dInput cInput : String)
    (hd : matchesAnyPattern (extractDomain dInput) config.blockedDomains = true)
    (hc : matchesAnyPattern (extractCommand cInput) config.blockedCommands = true) :
    isDomainAllowed config dInput = ApprovalStatus.BLOCKED ∧
    isCommandAllowed config cInput = ApprovalStatus.BLOCKED := by
  constructor <;> simp [isDomainAllowed, isCommandAllowed, hd, hc]

/-- Witness for C1: "127.0.0.1" and "rm" are BLOCKED by the baseline
blocklists even when the allowlists contain them verbatim. -/
theorem blocklist_always_blocks_witness :
    isDomainAllowed
        ⟨["127.0.0.1"], DEFAULT_BLOCKED_DOMAINS, ["rm"], DEFAULT_BLOCKED_COMMANDS⟩
        "127.0.0.1" = ApprovalStatus.BLOCKED ∧
    isCommandAllowed
        ⟨["127.0.0.1"], DEFAULT_BLOCKED_DOMAINS, ["rm"], DEFAULT_BLOCKED_COMMANDS⟩
        "rm" = ApprovalStatus.BLOCKED :=
  blocklist_always_blocks _ "127.0.0.1" "rm" (by decide) (by decide)

/-- C2: adding an identifier whose normalized form matches a blocklist
pattern to the corresponding allowlist throws and leaves the configuration
(hence the persisted file, which is only written after a mutation)
untouched. -/
theorem add_blocked_fails_untouched (config : ProxyConfig) (dInput cInput : String)
    (hd : matchesAnyPattern (extractDomain dInput) config.blockedDomains = true)
    (hc : matchesAnyPattern (extractCommand cInput) config.blockedCommands = true) :
    ((addDomainToAllowlist config dInput).1.isSome = true ∧
      (addDomainToAllowlist config dInput).2 = config) ∧
    ((addCommandToAllowlist config cInput).1.isSome = true ∧
      (addCommandToAllowlist config cInput).2 = config) := by
  constructor <;> constructor <;>
    simp [addDomainToAllowlist, addCommandToAllowlist, hd, hc]

/-- Witness for C2: adding "localhost" / "rm" to the default configuration's
allowlists fails and preserves the configuration. -/
theorem add_blocked_fails_untouched_witness :
    ((addDomainToAllowlist createDefaultConfig "localhost").1.isSome = true ∧
      (addDomainToAllowlist createDefaultConfig "localhost").2 = createDefaultConfig) ∧
    ((addCommandToAllowlist createDefaultConfig "rm").1.isSome = true ∧
      (addCommandToAllowlist createDefaultConfig "rm").2 = createDefaultConfig) :=
  add_blocked_fails_untouched createDefaultConfig "localhost" "rm"
    (by decide) (by decide)

/-- C3: an identifier classified NEEDS_APPROVAL that is then "always"
approved (added to the allowlist without error) classifies as ALLOWED on
re-invocation, with no token involved. -/
theorem approve_always_roundtrip (config cfgD cfgC : ProxyConfig)
    (dInput cInput : String)
    (hd1 : isDomainAllowed config dInput = ApprovalStatus.NEEDS_APPROVAL)
    (hd2 : addDomainToAllowlist config dInput = (none, cfgD))
    (hc1 : isCommandAllowed config cInput = ApprovalStatus.NEEDS_APPROVAL)
    (hc2 : addCommandToAllowlist config cInput = (none, cfgC)) :
    isDomainAllowed cfgD dInput = ApprovalStatus.ALLOWED ∧
    isCommandAllowed cfgC cInput = ApprovalStatus.ALLOWED := by
  constructor
  · by_cases hb : matchesAnyPattern (extractDomain dInput) config.blockedDomains = true
    · simp [isDomainAllowed, hb] at hd1
    · by_cases hm : extractDomain dInput ∈ config.allowedDomains
      · exfalso
        have : matchesAnyPattern (extractDomain dInput) config.allowedDomains = true :=
          matchesAnyPattern_of_mem hm
        simp [isDomainAllowed, hb, this] at hd1
      · have hcfg : cfgD = { config with
            allowedDomains := config.allowedDomains ++ [extractDomain dInput] } := by
          simp [addDomainToAllowlist, hb, hm] at hd2
          exact hd2.symm
        subst hcfg
        have hmem : matchesAnyPattern (extractDomain dInput)
            (config.allowedDomains ++ [extractDomain dInput]) = true :=
          matchesAnyPattern_of_mem (by simp)
        simp [isDomainAllowed, hb, hmem]
  · by_cases hb : matchesAnyPattern (extractCommand cInput) config.blockedCommands = true
    · simp [isCommandAllowed, hb] at hc1
    · by_cases hm : extractCommand cInput ∈ config.allowedCommands
      · exfalso
        have : matchesAnyPattern (extractCommand cInput) config.allowedCommands = true :=
          matchesAnyPattern_of_mem hm
        simp [isCommandAllowed, hb, this] at hc1
      · have hcfg : cfgC = { config with
            allowedCommands := config.allowedCommands ++ [extractCommand cInput] } := by
          simp [addCommandToAllowlist, hb, hm] at hc2
          exact hc2.symm
        subst hcfg
        have hmem : matchesAnyPattern (extractCommand cInput)
            (config.allowedCommands ++ [extractCommand cInput]) = true :=
          matchesAnyPattern_of_mem (by simp)
        simp [isCommandAllowed, hb, hmem]

/-- C5: the exec validation gate rejects, before anything is spawned,
exactly when one of the dangerous shell-operator substrings occurs in the
raw command string or in some argument string; the argument validator on
its own rejects the example with "; " and accepts the clean example. -/
theorem exec_gate_rejects_shell_operators :
    (∀ (command : String) (args : List String),
        networkExecGate command args = ExecGate.proceed ↔
          (containsDangerousPatterns command = none ∧
           ∀ a ∈ args, containsDangerousPatterns a = none)) ∧
    (∀ value : String,
        containsDangerousPatterns value = none ↔
          ∀ p ∈ DANGEROUS_PATTERNS, hasSub value.toList p.toList = false) ∧
    (∀ args : List String,
        validateArgs args = true ↔ ∀ a ∈ args, containsDangerousPatterns a = none) ∧
    validateArgs ["a", "b; rm -rf /"] = false ∧
    validateArgs ["--output", "video.mp4", "https://example.com/v"] = true := by
  refine ⟨?_, ?_, ?_, by decide, by decide⟩
  · intro command args
    cases hc : containsDangerousPatterns command with
    | some p =>
      constructor
      · intro h
        exfalso
        simp only [networkExecGate, hc] at h
        cases h
      · rintro ⟨h1, _⟩
        cases h1
    | none =>
      cases hf : (args.map containsDangerousPatterns).find? Option.isSome with
      | none =>
        have hf' := List.find?_eq_none.mp hf
        constructor
        · intro _
          refine ⟨rfl, fun a ha => ?_⟩
          have hna := hf' (containsDangerousPatterns a) (List.mem_map_of_mem _ ha)
          cases hca : containsDangerousPatterns a with
          | none => rfl
          | some q => rw [hca] at hna; simp at hna
        · intro _
          simp only [networkExecGate, hc, hf]
      | some o =>
        have ho : o.isSome = true := List.find?_some hf
        obtain ⟨q, rfl⟩ := Option.isSome_iff_exists.mp ho
        have hmem : some q ∈ args.map containsDangerousPatterns :=
          List.mem_of_find?_eq_some hf
        obtain ⟨a, ha, hq⟩ := List.mem_map.mp hmem
        constructor
        · intro h
          exfalso
          simp only [networkExecGate, hc, hf] at h
          cases h
        · rintro ⟨_, hall⟩
          exfalso
          rw [hall a ha] at hq
          cases hq
  · intro value
    simp only [containsDangerousPatterns, List.find?_eq_none, Bool.not_eq_true]
  · intro args
    simp only [validateArgs, List.all_eq_true, Option.isNone_iff_eq_none]

/-- Witness for C5: a clean command and argument vector passes the gate. -/
theorem exec_gate_rejects_shell_operators_witness :
    networkExecGate "curl" ["-s", "https://api.ipify.org"] = ExecGate.proceed :=
  (exec_gate_rejects_shell_operators.1 "curl" ["-s", "https://api.ipify.org"]).mpr
    ⟨by decide, by decide⟩

/-- Witness for C3: "example.com" and "curl" need approval under the default
configuration; after the "always" approval both classify as ALLOWED. -/
theorem approve_always_roundtrip_witness :
    isDomainAllowed (addDomainToAllowlist createDefaultConfig "example.com").2
        "example.com" = ApprovalStatus.ALLOWED ∧
    isCommandAllowed (addCommandToAllowlist createDefaultConfig "curl").2
        "curl" = ApprovalStatus.ALLOWED :=
  approve_always_roundtrip createDefaultConfig
    (addDomainToAllowlist createDefaultConfig "example.com").2
    (addCommandToAllowlist createDefaultConfig "curl").2
    "example.com" "curl" (by decide) (by decide) (by decide) (by decide)

section RateLimiterLemmas

theorem foldl_min_lower (c : Int) :
    ∀ (rest : List Int) (t : Int), c ≤ t → (∀ x ∈ rest, c ≤ x) →
      c ≤ rest.foldl min t := by
  intro rest
  induction rest with
  | nil => intro t ht _; simpa using ht
  | cons y ys ih =>
    intro t ht hall
    simp only [List.foldl_cons]
    exact ih (min t y) (le_min ht (hall y (by simp)))
      (fun x hx => hall x (by simp [hx]))

theorem le_listMin {c : Int} {l : List Int} (hne : l ≠ [])
    (hall : ∀ x ∈ l, c ≤ x) : c ≤ listMin l := by
  cases l with
  | nil => cases hne rfl
  | cons t rest =>
    exact foldl_min_lower c rest t (hall t (by simp))
      (fun x hx => hall x (by simp [hx]))

theorem checkRateLimit_eq_of_filter_eq {now : Int} {config : RateLimitConfig}
    {l1 l2 : List Int}
    (h : (l1.filter fun t => now - config.windowMs ≤ t)
          = (l2.filter fun t => now - config.windowMs ≤ t)) :
    checkRateLimit now config l1 = checkRateLimit now config l2 := by
  simp only [checkRateLimit]
  rw [h]

theorem window_filter_compose {w now later : Int} (h : now ≤ later)
    (l : List Int) :
    ((l.filter fun t => now - w ≤ t).filter fun t => later - w ≤ t)
      = l.filter fun t => later - w ≤ t := by
  rw [List.filter_filter]
  refine List.filter_congr fun x _ => ?_
  by_cases h2 : later - w ≤ x
  · have h1 : now - w ≤ x := by omega
    simp [h1, h2]
  · simp [h2]

end RateLimiterLemmas

/-- C6: each admission call first discards timestamps older than
`now − windowMs` (the call's outcome depends only on the in-window
timestamps); with `maxRequests ≥ 1`, when the surviving count reaches
`maxRequests` the call is denied with
`retryAfterMs = oldest surviving + windowMs − now`, a value that is always
nonnegative, and no timestamp is recorded, otherwise the call is admitted
and `now` appended; concretely, with maxRequests 3 and windowMs 1000,
calls at 0, 100, 200 are allowed, a fourth at 300 is denied with
retryAfterMs 700 > 0, and a call at 1100 — past the window of the first —
is allowed again. -/
theorem checkRateLimit_sliding_window :
    (∀ (now : Int) (config : RateLimitConfig) (ts : List Int),
        checkRateLimit now config ts
          = checkRateLimit now config
              (ts.filter fun t => now - config.windowMs ≤ t)) ∧
    (∀ (now : Int) (config : RateLimitConfig) (ts : List Int),
        1 ≤ config.maxRequests →
        config.maxRequests ≤ (ts.filter fun t => now - config.windowMs ≤ t).length →
        checkRateLimit now config ts
          = ({ allowed := false, remaining := 0,
               retryAfterMs := some
                 (listMin (ts.filter fun t => now - config.windowMs ≤ t)
                   + config.windowMs - now) },
             ts.filter fun t => now - config.windowMs ≤ t) ∧
        0 ≤ listMin (ts.filter fun t => now - config.windowMs ≤ t)
              + config.windowMs - now) ∧
    (∀ (now : Int) (config : RateLimitConfig) (ts : List Int),
        (ts.filter fun t => now - config.windowMs ≤ t).length < config.maxRequests →
        checkRateLimit now config ts
          = ({ allowed := true,
               remaining := (config.maxRequests : Int)
                 - ((ts.filter fun t => now - config.windowMs ≤ t).length + 1),
               retryAfterMs := none },
             (ts.filter fun t => now - config.windowMs ≤ t) ++ [now])) ∧
    (checkRateLimit 0 ⟨3, 1000⟩ []).1.allowed = true ∧
    (checkRateLimit 0 ⟨3, 1000⟩ []).2 = [0] ∧
    (checkRateLimit 100 ⟨3, 1000⟩ [0]).1.allowed = true ∧
    (checkRateLimit 100 ⟨3, 1000⟩ [0]).2 = [0, 100] ∧
    (checkRateLimit 200 ⟨3, 1000⟩ [0, 100]).1.allowed = true ∧
    (checkRateLimit 200 ⟨3, 1000⟩ [0, 100]).2 = [0, 100, 200] ∧
    (checkRateLimit 300 ⟨3, 1000⟩ [0, 100, 200]).1.allowed = false ∧
    (checkRateLimit 300 ⟨3, 1000⟩ [0, 100, 200]).1.retryAfterMs = some 700 ∧
    (checkRateLimit 1100 ⟨3, 1000⟩ [0, 100, 200]).1.allowed = true := by
  refine ⟨?_, ?_, ?_, by decide, by decide, by decide, by decide, by decide,
    by decide, by decide, by decide, by decide⟩
  · intro now config ts
    exact checkRateLimit_eq_of_filter_eq (window_filter_compose (le_refl now) ts).symm
  · intro now config ts h1 h2
    have hne : (ts.filter fun t => now - config.windowMs ≤ t) ≠ [] := by
      intro hnil
      rw [hnil] at h2
      simp at h2
      omega
    have hmin : now - config.windowMs
        ≤ listMin (ts.filter fun t => now - config.windowMs ≤ t) := by
      refine le_listMin hne (fun x hx => ?_)
      have := (List.mem_filter.mp hx).2
      simpa using this
    have hr : 0 ≤ listMin (ts.filter fun t => now - config.windowMs ≤ t)
        + config.windowMs - now := by omega
    refine ⟨?_, hr⟩
    simp only [checkRateLimit]
    rw [if_pos h2, max_eq_right hr]
  · intro now config ts hlt
    simp only [checkRateLimit]
    rw [if_neg (by omega)]

/-- Witness for C6: the fourth call of the concrete scenario is denied with
retryAfterMs 700 and an unchanged timestamp list. -/
theorem checkRateLimit_sliding_window_witness :
    checkRateLimit 300 ⟨3, 1000⟩ [0, 100, 200]
      = ({ allowed := false, remaining := 0, retryAfterMs := some 700 },
         [0, 100, 200]) := by
  rw [(checkRateLimit_sliding_window.2.1 300 ⟨3, 1000⟩ [0, 100, 200]
    (by decide) (by decide)).1]
  decide

/-- C10: a denied admission call records nothing: the in-window timestamps
are unchanged, and any later call (at `later ≥ now`) behaves exactly as it
would have had the denied call never happened. -/
theorem denied_call_records_nothing (now : Int) (config : RateLimitConfig)
    (ts : List Int)
    (hdenied : (checkRateLimit now config ts).1.allowed = false) :
    ((checkRateLimit now config ts).2.filter fun t => now - config.windowMs ≤ t)
      = ts.filter (fun t => now - config.windowMs ≤ t) ∧
    ∀ later : Int, now ≤ later →
      checkRateLimit later config (checkRateLimit now config ts).2
        = checkRateLimit later config ts := by
  have hpost : (checkRateLimit now config ts).2
      = ts.filter fun t => now - config.windowMs ≤ t := by
    by_cases hc : config.maxRequests
        ≤ (ts.filter fun t => now - config.windowMs ≤ t).length
    · simp only [checkRateLimit]
      rw [if_pos hc]
    · exfalso
      simp only [checkRateLimit] at hdenied
      rw [if_neg hc] at hdenied
      simp at hdenied
  constructor
  · rw [hpost]
    exact window_filter_compose (le_refl now) ts
  · intro later hlater
    rw [hpost]
    exact checkRateLimit_eq_of_filter_eq (window_filter_compose hlater ts)

/-- Witness for C10: after the denied call at 300, the call at 1100 gives
the same result as if the denied call had not happened. -/
theorem denied_call_records_nothing_witness :
    ((checkRateLimit 300 ⟨3, 1000⟩ [0, 100, 200]).2.filter
        fun t => (300 : Int) - (⟨3, 1000⟩ : RateLimitConfig).windowMs ≤ t)
      = ([0, 100, 200] : List Int).filter
          (fun t => (300 : Int) - (⟨3, 1000⟩ : RateLimitConfig).windowMs ≤ t) ∧
    checkRateLimit 1100 ⟨3, 1000⟩ (checkRateLimit 300 ⟨3, 1000⟩ [0, 100, 200]).2
      = checkRateLimit 1100 ⟨3, 1000⟩ [0, 100, 200] := by
  have h := denied_call_records_nothing 300 ⟨3, 1000⟩ [0, 100, 200] (by decide)
  exact ⟨h.1, h.2 1100 (by decide)⟩

section RegistryLemmas

theorem lookup_removeEntry (id : String) (files : RegistryFiles) :
    (removeEntry id files).lookup id = none := by
  induction files with
  | nil => rfl
  | cons e rest ih =>
    obtain ⟨k, v⟩ := e
    by_cases hk : k = id
    · have hstep : removeEntry id ((k, v) :: rest) = removeEntry id rest := by
        simp [removeEntry, List.filter_cons, hk]
      rw [hstep]
      exact ih
    · have hne : (id == k) = false :=
        beq_eq_false_iff_ne.mpr fun h => hk h.symm
      have hstep : removeEntry id ((k, v) :: rest)
          = (k, v) :: removeEntry id rest := by
        simp [removeEntry, List.filter_cons, hk]
      rw [hstep]
      simp only [List.lookup, hne]
      exact ih

end RegistryLemmas

/-- C7 (amended): a registered id is treated as absent, with its entry
removed as a side effect, once `now` is strictly past `expiresAt`
(the source compares with `registration.expiresAt < new Date()`); at
`now = expiresAt` and before, lookup still returns the registration and
leaves the table unchanged, and an unregistered id is absent. -/
theorem registry_lazy_expiry_strict (now : Int) (files : RegistryFiles)
    (id : String) :
    (∀ r : FileRegistration, files.lookup id = some r →
      (r.expiresAt < now →
        (FileRegistry.get now files id).1 = none ∧
        (FileRegistry.get now files id).2.lookup id = none) ∧
      (now ≤ r.expiresAt →
        FileRegistry.get now files id = (some r, files))) ∧
    (files.lookup id = none → FileRegistry.get now files id = (none, files)) := by
  constructor
  · intro r hr
    constructor
    · intro hexp
      simp only [FileRegistry.get, hr]
      rw [if_pos hexp]
      exact ⟨rfl, lookup_removeEntry id files⟩
    · intro hle
      simp only [FileRegistry.get, hr]
      rw [if_neg (by omega)]
  · intro hnone
    simp [FileRegistry.get, hnone]

/-- Witness for C7 (amended): a registration expiring at 5 is gone at 6
(and its entry dropped) but still returned at 4. -/
theorem registry_lazy_expiry_strict_witness :
    ((FileRegistry.get 6
        [("a", ⟨"a", "/tmp/o", "/tmp/s", "f.png", "image/png", 1, 0, 5⟩)]
        "a").1 = none ∧
      (FileRegistry.get 6
        [("a", ⟨"a", "/tmp/o", "/tmp/s", "f.png", "image/png", 1, 0, 5⟩)]
        "a").2.lookup "a" = none) ∧
    FileRegistry.get 4
        [("a", ⟨"a", "/tmp/o", "/tmp/s", "f.png", "image/png", 1, 0, 5⟩)]
        "a"
      = (some ⟨"a", "/tmp/o", "/tmp/s", "f.png", "image/png", 1, 0, 5⟩,
         [("a", ⟨"a", "/tmp/o", "/tmp/s", "f.png", "image/png", 1, 0, 5⟩)]) := by
  have h := (registry_lazy_expiry_strict 6
      [("a", ⟨"a", "/tmp/o", "/tmp/s", "f.png", "image/png", 1, 0, 5⟩)] "a").1
      ⟨"a", "/tmp/o", "/tmp/s", "f.png", "image/png", 1, 0, 5⟩ (by decide)
  have h4 := (registry_lazy_expiry_strict 4
      [("a", ⟨"a", "/tmp/o", "/tmp/s", "f.png", "image/png", 1, 0, 5⟩)] "a").1
      ⟨"a", "/tmp/o", "/tmp/s", "f.png", "image/png", 1, 0, 5⟩ (by decide)
  exact ⟨h.1 (by decide), h4.2 (by decide)⟩

/-- C7 counterexample: the claim reads "once now ≥ expiresAt, lookup returns
absent", but at the boundary instant `now = expiresAt` the code's strict
comparison still returns the stale registration. -/
theorem registry_expiry_boundary_counterexample :
    ((⟨"a", "/tmp/o", "/tmp/s", "f.png", "image/png", 1, 0, 5⟩ :
        FileRegistration).expiresAt ≤ (5 : Int)) ∧
    (FileRegistry.get 5
        [("a", ⟨"a", "/tmp/o", "/tmp/s", "f.png", "image/png", 1, 0, 5⟩)]
        "a").1
      = some ⟨"a", "/tmp/o", "/tmp/s", "f.png", "image/png", 1, 0, 5⟩ ∧
    ¬ (FileRegistry.get 5
        [("a", ⟨"a", "/tmp/o", "/tmp/s", "f.png", "image/png", 1, 0, 5⟩)]
        "a").1 = none := by
  refine ⟨by decide, by decide, by decide⟩

/-- C8 counterexample: an OPTIONS request receives the 204 CORS-preflight
response, not the method-not-allowed response the claim predicts for every
method other than GET and HEAD. -/
theorem http_options_counterexample :
    (HttpFileServer.handleRequest "OPTIONS" "/x" 0 []).1 = HttpResponse.noContent ∧
    ¬ (HttpFileServer.handleRequest "OPTIONS" "/x" 0 []).1
        = HttpResponse.methodNotAllowed ∧
    ¬ "OPTIONS" = "GET" ∧ ¬ "OPTIONS" = "HEAD" := by
  refine ⟨by decide, by decide, by decide, by decide⟩

/-- C8 (amended): OPTIONS gets the 204 preflight response; every method
other than GET, HEAD and OPTIONS gets method-not-allowed; a GET/HEAD whose
final path segment does not have the exact form of a 36-character id of
`[0-9a-f-]` characters followed by a dot and a nonempty dot-free extension
gets not-found; in all three cases the registry is untouched (and no
filesystem access is modelled).  A file is served only for GET or HEAD
when the final segment matches that form and the (lazily expiring)
registry lookup succeeds on the captured id. -/
theorem http_dispatch_amended (method url : String) (now : Int)
    (files : RegistryFiles) :
    HttpFileServer.handleRequest "OPTIONS" url now files
      = (HttpResponse.noContent, files) ∧
    (¬ method = "OPTIONS" → ¬ method = "GET" → ¬ method = "HEAD" →
      HttpFileServer.handleRequest method url now files
        = (HttpResponse.methodNotAllowed, files)) ∧
    ((method = "GET" ∨ method = "HEAD") →
      matchRegistryFilename (lastPathSegment (requestPathname url)) = none →
      HttpFileServer.handleRequest method url now files
        = (HttpResponse.notFound, files)) ∧
    (∀ (r : FileRegistration) (files2 : RegistryFiles),
      (HttpFileServer.handleRequest method url now files
          = (HttpResponse.okFull r, files2) ∨
       HttpFileServer.handleRequest method url now files
          = (HttpResponse.okHead r, files2)) →
      (method = "GET" ∨ method = "HEAD") ∧
      ∃ fileId,
        matchRegistryFilename (lastPathSegment (requestPathname url))
          = some fileId ∧
        (FileRegistry.get now files fileId).1 = some r) ∧
    (∀ (s fileId : String), matchRegistryFilename s = some fileId →
      fileId.length = 36 ∧ fileId.toList.all isHexDashChar = true ∧
      ∃ ext : List Char, s.toList = fileId.toList ++ '.' :: ext ∧
        ¬ ext = [] ∧ ext.all (fun c => c ≠ '.') = true) := by
  refine ⟨?_, ?_, ?_, ?_, ?_⟩
  · simp [HttpFileServer.handleRequest]
  · intro h1 h2 h3
    simp [HttpFileServer.handleRequest, h1, h2, h3]
  · intro hGH hm
    rcases hGH with rfl | rfl <;> simp [HttpFileServer.handleRequest, hm]
  · intro r files2 h
    by_cases hopt : method = "OPTIONS"
    · exfalso
      subst hopt
      rcases h with h | h <;> simp [HttpFileServer.handleRequest] at h
    · have hGH : method = "GET" ∨ method = "HEAD" := by
        by_contra hno
        push_neg at hno
        obtain ⟨hG, hH⟩ := hno
        rcases h with h | h <;>
          simp [HttpFileServer.handleRequest, hopt, hG, hH] at h
      refine ⟨hGH, ?_⟩
      cases hm : matchRegistryFilename (lastPathSegment (requestPathname url)) with
      | none =>
        exfalso
        rcases h with h | h <;> rcases hGH with rfl | rfl <;>
          simp [HttpFileServer.handleRequest, hm] at h
      | some fileId =>
        refine ⟨fileId, rfl, ?_⟩
        rcases hget : FileRegistry.get now files fileId with ⟨res, f2⟩
        cases res with
        | none =>
          exfalso
          rcases h with h | h <;> rcases hGH with rfl | rfl <;>
            simp [HttpFileServer.handleRequest, hm, hget] at h
        | some reg =>
          rcases hGH with rfl | rfl <;>
            rcases h with h | h <;>
            simp [HttpFileServer.handleRequest, hm, hget] at h <;>
            simp [h.1]
  · intro s fileId hmf
    simp only [matchRegistryFilename] at hmf
    split at hmf
    · split at hmf
      · rename_i hid hrest
        injection hmf with hfid
        subst hfid
        simp only [Bool.and_eq_true, decide_eq_true_eq] at hid hrest
        obtain ⟨hlen, hhex⟩ := hid
        obtain ⟨hdot, hne, hnod⟩ := hrest
        cases hdrop : s.toList.drop 36 with
        | nil =>
          exfalso
          rw [hdrop] at hne
          simp at hne
        | cons c ext =>
          rw [hdrop] at hdot hne hnod
          simp only [List.headD, List.tail] at hdot hne hnod
          subst hdot
          refine ⟨hlen, hhex, ext, ?_, by simpa using hne, hnod⟩
          conv_lhs => rw [← List.take_append_drop 36 s.toList]
          rw [hdrop]
          rfl
      · exact Option.noConfusion hmf
    · exact Option.noConfusion hmf

/-- Witness for C8 (amended): a POST is method-not-allowed; a GET for a
malformed segment is not-found; a GET for a registered unexpired id is
served. -/
theorem http_dispatch_amended_witness :
    HttpFileServer.handleRequest "POST" "/x" 0 []
      = (HttpResponse.methodNotAllowed, []) ∧
    HttpFileServer.handleRequest "GET" "/files/evil.png" 0 []
      = (HttpResponse.notFound, []) := by
  have h1 := (http_dispatch_amended "POST" "/x" 0 []).2.1
    (by decide) (by decide) (by decide)
  have h2 := (http_dispatch_amended "GET" "/files/evil.png" 0 []).2.2.1
    (Or.inl rfl) (by decide)
  exact ⟨h1, h2⟩

/-- C9 counterexample: the claim says an intentional stop resets
restartCount to zero, but `stop` leaves it untouched: stopping with
restartCount 2 keeps it at 2. -/
theorem tunnel_stop_counterexample :
    (TunnelManager.stop ⟨true, some "u", 2⟩).restartCount = 2 ∧
    ¬ (TunnelManager.stop ⟨true, some "u", 2⟩).restartCount = 0 := by
  refine ⟨by decide, by decide⟩

/-- C9 (amended): restartCount is never reset: the intentional stop leaves
it unchanged, an unexpected close of a running tunnel under the restart cap
increments it, no close event ever decreases it, and observing the public
URL does not change it. -/
theorem tunnel_restart_count_amended (s : TunnelState) (u : String) :
    (TunnelManager.stop s).restartCount = s.restartCount ∧
    (s.publicUrl.isSome = true → s.restartCount < maxRestarts →
      (TunnelManager.onClose s).restartCount = s.restartCount + 1) ∧
    s.restartCount ≤ (TunnelManager.onClose s).restartCount ∧
    (TunnelManager.urlFound u s).restartCount = s.restartCount := by
  refine ⟨rfl, ?_, ?_, rfl⟩
  · intro hrun hcap
    simp [TunnelManager.onClose, hrun, hcap]
  · by_cases hrun : s.publicUrl.isSome = true
    · by_cases hcap : s.restartCount < maxRestarts
      · simp [TunnelManager.onClose, hrun, hcap]
      · simp [TunnelManager.onClose, hrun, hcap]
    · simp [TunnelManager.onClose, hrun]

/-- Witness for C9 (amended): stopping at restartCount 1 keeps it at 1; an
unexpected close of a running tunnel at restartCount 1 raises it to 2. -/
theorem tunnel_restart_count_amended_witness :
    (TunnelManager.stop ⟨true, some "u", 1⟩).restartCount = 1 ∧
    (TunnelManager.onClose ⟨true, some "u", 1⟩).restartCount = 2 := by
  have h := tunnel_restart_count_amended ⟨true, some "u", 1⟩ "u"
  exact ⟨h.1, h.2.1 (by decide) (by decide)⟩
